import Mathlib

/-!
Verification of the coding-cli terminal assistant.

This development embeds, as executable Lean definitions, the data model and
the operations of the `edit`, `fix` and `explain` commands of the coding-cli
repository:

* the output-path derivation and the `writeTextFile` writers of the fix and
  edit commands (they differ only in the inserted suffix and the wording of
  the success message, so both are obtained from one parametrised writer),
* the unguarded `readTextFile` reader,
* the workflow handlers together with the JSON/schema validation step of the
  structured model responses, and
* the bounded generate-judge-retry state machines of the `edit` and `fix`
  workflows, driven by an oracle supplying the model and judge responses.

The theorems named after the claims C1 .. C10 settle the specification
claims about this code.
-/

set_option autoImplicit false

namespace CodingCli

/-! ### Splitting a path on dots

JavaScript `filePath.split('.')` cuts the whole string at every dot and
always yields at least one (possibly empty) component.  Strings are handled
through their `List Char` data.
-/

/-- Model of `filePath.split('.')` on the character list of the path. -/
def splitOnDot : List Char → List (List Char)
  | [] => [[]]
  | c :: cs =>
    match splitOnDot cs with
    | [] => [[]]
    | p :: ps => if c = '.' then [] :: p :: ps else (c :: p) :: ps

/-- Model of `parts.join('.')`. -/
def joinDot : List (List Char) → List Char
  | [] => []
  | [p] => p
  | p :: q :: ps => p ++ '.' :: joinDot (q :: ps)

/-- Model of `parts.pop()`: the last component (the split list is never
empty, so the `|| ''` default of the source is immaterial). -/
def lastPart : List (List Char) → List Char
  | [] => []
  | [p] => p
  | _ :: q :: ps => lastPart (q :: ps)

/-- The components left in `parts` after `parts.pop()`. -/
def frontParts : List (List Char) → List (List Char)
  | [] => []
  | [_] => []
  | p :: q :: ps => p :: frontParts (q :: ps)

theorem splitOnDot_ne_nil (l : List Char) : splitOnDot l ≠ [] := by
  cases l with
  | nil => simp [splitOnDot]
  | cons c cs =>
    simp only [splitOnDot]
    cases h : splitOnDot cs with
    | nil => simp
    | cons p ps =>
      by_cases hc : c = '.' <;> simp [hc]

theorem frontParts_append_lastPart (l : List (List Char)) (h : l ≠ []) :
    frontParts l ++ [lastPart l] = l := by
  induction l with
  | nil => exact absurd rfl h
  | cons p ps ih =>
    cases ps with
    | nil => simp [frontParts, lastPart]
    | cons q qs =>
      simp only [frontParts, lastPart, List.cons_append, List.cons.injEq, true_and]
      exact ih (by simp)

theorem frontParts_append (l : List (List Char)) (e : List Char) :
    frontParts (l ++ [e]) = l := by
  induction l with
  | nil => simp [frontParts]
  | cons d ds ih =>
    cases ds with
    | nil => simp [frontParts]
    | cons d2 ds2 =>
      simp only [List.cons_append, frontParts, List.cons.injEq, true_and]
      simpa using ih

theorem lastPart_append (l : List (List Char)) (e : List Char) :
    lastPart (l ++ [e]) = e := by
  induction l with
  | nil => simp [lastPart]
  | cons d ds ih =>
    cases ds with
    | nil => simp [lastPart]
    | cons d2 ds2 =>
      simp only [List.cons_append, lastPart]
      simpa using ih

theorem joinDot_append_single (ds : List (List Char)) (e : List Char) (h : ds ≠ []) :
    joinDot (ds ++ [e]) = joinDot ds ++ '.' :: e := by
  induction ds with
  | nil => exact absurd rfl h
  | cons d ds ih =>
    cases ds with
    | nil => simp [joinDot]
    | cons d2 ds2 =>
      have ih2 := ih (by simp)
      calc joinDot ((d :: d2 :: ds2) ++ [e])
          = d ++ '.' :: joinDot ((d2 :: ds2) ++ [e]) := rfl
        _ = d ++ '.' :: (joinDot (d2 :: ds2) ++ '.' :: e) := by rw [ih2]
        _ = joinDot (d :: d2 :: ds2) ++ '.' :: e := by
            simp [joinDot]

theorem joinDot_splitOnDot (l : List Char) : joinDot (splitOnDot l) = l := by
  induction l with
  | nil => simp [splitOnDot, joinDot]
  | cons c cs ih =>
    simp only [splitOnDot]
    cases h : splitOnDot cs with
    | nil => exact absurd h (splitOnDot_ne_nil cs)
    | cons p ps =>
      rw [h] at ih
      by_cases hc : c = '.'
      · subst hc
        simp only [if_pos rfl, joinDot]
        cases ps with
        | nil => simpa [joinDot] using ih
        | cons q qs => simpa [joinDot] using ih
      · simp only [if_neg hc]
        cases ps with
        | nil => simpa [joinDot] using ih
        | cons q qs =>
          simp only [joinDot] at ih ⊢
          simpa using ih

theorem splitOnDot_append_dot (a b : List Char) :
    splitOnDot (a ++ '.' :: b) = splitOnDot a ++ splitOnDot b := by
  induction a with
  | nil =>
    simp only [List.nil_append, splitOnDot]
    cases h : splitOnDot b with
    | nil => exact absurd h (splitOnDot_ne_nil b)
    | cons p ps => simp [splitOnDot]
  | cons c cs ih =>
    cases h : splitOnDot cs with
    | nil => exact absurd h (splitOnDot_ne_nil cs)
    | cons p ps =>
      show (match splitOnDot (cs ++ '.' :: b) with
            | [] => [[]]
            | r :: rs => if c = '.' then [] :: r :: rs else (c :: r) :: rs) =
          splitOnDot (c :: cs) ++ splitOnDot b
      rw [ih, h]
      simp only [splitOnDot, h, List.cons_append]
      by_cases hc : c = '.' <;> simp [hc]

theorem splitOnDot_no_dot (l : List Char) (h : '.' ∉ l) : splitOnDot l = [l] := by
  induction l with
  | nil => simp [splitOnDot]
  | cons c cs ih =>
    simp only [List.mem_cons, not_or] at h
    have hc : ¬ c = '.' := fun hcc => h.1 hcc.symm
    simp [splitOnDot, ih h.2, hc]

/-! ### The writer

`writeTextFile` of `src/commands/fix.ts` / of the edit command: derive the
output path by splitting the whole path string on dots, popping the last
component as the extension, and inserting `_fixed` / `_edited` between the
rejoined front and the extension, then write the content there.  The two
copies in the source differ only in the suffix and the message wording.
-/

/-- Path derivation of `writeTextFile` on character lists:
`flName ++ suffix ++ "." ++ extension`. -/
def derivedPathData (suffix p : List Char) : List Char :=
  let parts := splitOnDot p
  joinDot (frontParts parts) ++ suffix ++ '.' :: lastPart parts

/-- The output path `${flName}_fixed.${extension}` (resp. `_edited`) as a
string; `suffix` is `"_fixed"` or `"_edited"`. -/
def derivedPath (suffix filePath : String) : String :=
  String.mk (derivedPathData suffix.data filePath.data)

/-- A file system maps each path to the content of the file there, if any. -/
abbrev Fs := String → Option String

/-- Writing a file replaces the content stored at exactly that path. -/
def fsWrite (fs : Fs) (p c : String) : Fs :=
  fun q => if q = p then some c else fs q

/-- Model of `writeFile` from `fs/promises`: the ambient disk failure, when
present, makes the call throw. -/
def writeFilePrim (diskErr : Option String) (fs : Fs) (p c : String) :
    Except String Fs :=
  match diskErr with
  | some e => .error e
  | none => .ok (fsWrite fs p c)

/-- Model of `readFile` from `fs/promises`: throws when the file is absent. -/
def readFilePrim (fs : Fs) (p : String) : Except String String :=
  match fs p with
  | some c => .ok c
  | none => .error ("ENOENT: no such file or directory, open " ++ p)

/-- `readTextFile`: a bare `readFile` with no try/catch, so a failure
propagates to the caller (identical in the explain, edit and fix files). -/
def readTextFile (fs : Fs) (filePath : String) : Except String String :=
  readFilePrim fs filePath

/-- picocolors `bold`. -/
def bold (s : String) : String := "\x1b[1m" ++ s ++ "\x1b[22m"

/-- picocolors `green`. -/
def green (s : String) : String := "\x1b[32m" ++ s ++ "\x1b[39m"

/-- picocolors `red`. -/
def red (s : String) : String := "\x1b[31m" ++ s ++ "\x1b[39m"

/-- The `try` block of `writeTextFile`: derive the output path and write the
content; the `writeFile` call may throw. `suffix` and the success wording are
the two points where the edit and fix copies differ. -/
def writeTextFileBody (suffix okMsg : String) (diskErr : Option String)
    (fs : Fs) (filePath content : String) : Except String (Fs × String) := do
  let flPath := derivedPath suffix filePath
  let fs2 ← writeFilePrim diskErr fs flPath content
  return (fs2, okMsg ++ green (bold flPath))

/-- `writeTextFile`: the `catch` turns any failure of the body into a
human-readable message and leaves the file system unchanged. -/
def writeTextFileGen (suffix okMsg : String) (diskErr : Option String)
    (fs : Fs) (filePath content : String) : Fs × String :=
  match writeTextFileBody suffix okMsg diskErr fs filePath content with
  | .ok r => r
  | .error e => (fs, "Error creating the edited file: " ++ e)

/-- Success wording of the fix writer. -/
def fixOkMsg : String := "Successfully fixed your file! Find the fixed version at: "

/-- Success wording of the edit writer. -/
def editOkMsg : String := "Successfully edited your file! Find the edited version at: "

/-- `writeTextFile` of `src/commands/fix.ts`. -/
def writeTextFileFix : Option String → Fs → String → String → Fs × String :=
  writeTextFileGen ("_fixed") fixOkMsg

/-- `writeTextFile` of the edit command. -/
def writeTextFileEdit : Option String → Fs → String → String → Fs × String :=
  writeTextFileGen ("_edited") editOkMsg

/-- The empty file system. -/
def fsEmpty : Fs := fun _ => none

theorem derivedPathData_split (suffix stem ext : List Char) (h : '.' ∉ ext) :
    derivedPathData suffix (stem ++ '.' :: ext) =
      stem ++ suffix ++ '.' :: ext := by
  have hsplit : splitOnDot (stem ++ '.' :: ext) = splitOnDot stem ++ [ext] := by
    rw [splitOnDot_append_dot, splitOnDot_no_dot ext h]
  simp only [derivedPathData, hsplit, frontParts_append, lastPart_append,
    joinDot_splitOnDot]

theorem derivedPathData_no_dot (suffix p : List Char) (h : '.' ∉ p) :
    derivedPathData suffix p = suffix ++ '.' :: p := by
  simp [derivedPathData, splitOnDot_no_dot p h, frontParts, lastPart, joinDot]

theorem derivedPathData_length (suffix p : List Char) :
    p.length + suffix.length ≤ (derivedPathData suffix p).length := by
  have hne := splitOnDot_ne_nil p
  have hp : joinDot (frontParts (splitOnDot p) ++ [lastPart (splitOnDot p)]) = p := by
    rw [frontParts_append_lastPart (splitOnDot p) hne, joinDot_splitOnDot]
  have hd : derivedPathData suffix p =
      joinDot (frontParts (splitOnDot p)) ++ suffix ++ '.' :: lastPart (splitOnDot p) :=
    rfl
  cases hf : frontParts (splitOnDot p) with
  | nil =>
    rw [hf] at hp
    simp only [List.nil_append, joinDot] at hp
    rw [hd, hf, hp]
    simp only [joinDot, List.nil_append, List.length_append, List.length_cons]
    omega
  | cons d ds =>
    rw [hf] at hp
    rw [joinDot_append_single (d :: ds) _ (by simp)] at hp
    rw [hd, hf]
    have hlen := congrArg List.length hp
    simp only [List.length_append, List.length_cons] at hlen ⊢
    omega

theorem derivedPath_ne (suffix filePath : String) (h : suffix.data ≠ []) :
    derivedPath suffix filePath ≠ filePath := by
  intro heq
  have hdata : derivedPathData suffix.data filePath.data = filePath.data := by
    have := congrArg String.data heq
    simpa [derivedPath] using this
  have hlen := derivedPathData_length suffix.data filePath.data
  rw [hdata] at hlen
  have : suffix.data.length = 0 := by omega
  exact h (List.length_eq_zero.mp this)

theorem writeTextFileGen_frame (suffix okMsg : String) (hs : suffix.data ≠ [])
    (diskErr : Option String) (fs : Fs) (p c : String) :
    (writeTextFileGen suffix okMsg diskErr fs p c).1 p = fs p := by
  cases diskErr with
  | some e => rfl
  | none =>
    have hne : p ≠ derivedPath suffix p := fun h => derivedPath_ne suffix p hs h.symm
    simp [writeTextFileGen, writeTextFileBody, writeFilePrim, Except.bind, fsWrite,
      if_neg hne]

/-! ### Claims about the writer (C3, C4, C5, C9) -/

theorem string_eq_of_data {s t : String} (h : s.data = t.data) : s = t :=
  congrArg String.mk h

/-- C3: when the accepted content is written for the input path `foo.py`, the
edit command produces the file `foo_edited.py` and the fix command produces
`foo_fixed.py`, and the bytes stored at that output path equal the accepted
content exactly. -/
theorem C3_output_name_and_content :
    derivedPath ("_edited") ("foo.py") = "foo_edited.py" ∧
    derivedPath ("_fixed") ("foo.py") = "foo_fixed.py" ∧
    (∀ fs c, (writeTextFileEdit none fs ("foo.py") c).1 ("foo_edited.py") = some c) ∧
    (∀ fs c, (writeTextFileFix none fs ("foo.py") c).1 ("foo_fixed.py") = some c) := by
  have hedit : derivedPath ("_edited") ("foo.py") = "foo_edited.py" := by decide
  have hfix : derivedPath ("_fixed") ("foo.py") = "foo_fixed.py" := by decide
  refine ⟨hedit, hfix, ?_, ?_⟩
  · intro fs c
    simp [writeTextFileEdit, writeTextFileGen, writeTextFileBody, writeFilePrim,
      Except.bind, hedit, fsWrite]
  · intro fs c
    simp [writeTextFileFix, writeTextFileGen, writeTextFileBody, writeFilePrim,
      Except.bind, hfix, fsWrite]

/-- C4 counterexample: on the extensionless path `Makefile` the writer does
not produce a name of the claimed form `<basename>_<suffix>.<ext>`: there is
no decomposition of `Makefile` into a basename and an extension at all, yet
the writer still rewrites the path, to `_fixed.Makefile`. -/
theorem C4_counterexample :
    derivedPath ("_fixed") ("Makefile") = "_fixed.Makefile" ∧
    ¬ ∃ stem ext : String, "Makefile" = stem ++ "." ++ ext ∧
        derivedPath ("_fixed") ("Makefile") = stem ++ "_fixed" ++ "." ++ ext := by
  refine ⟨by decide, ?_⟩
  rintro ⟨stem, ext, hdec, -⟩
  have hmem : '.' ∈ ("Makefile").data := by
    rw [hdec]
    simp [String.data_append]
  exact absurd hmem (by decide)

/-- C4 amended: for every path that contains a dot, the writer splits at the
last dot of the whole path string and inserts the suffix there, mapping
`stem.ext` to `stem_suffix.ext` whenever `ext` is dot-free (the stem may
itself contain dots or directory separators); for a dot-free path `p` the
output is `_suffix.p`, with the whole name treated as the extension. -/
theorem C4_amended_derivation (suffix : String) :
    (∀ stem ext : String, '.' ∉ ext.data →
        derivedPath suffix (stem ++ "." ++ ext) = stem ++ suffix ++ "." ++ ext) ∧
    (∀ p : String, '.' ∉ p.data → derivedPath suffix p = suffix ++ "." ++ p) := by
  have hdot : (".").data = ['.'] := rfl
  constructor
  · intro stem ext h
    have hdata : (stem ++ "." ++ ext).data = stem.data ++ '.' :: ext.data := by
      simp [String.data_append]
    have hmain : (derivedPath suffix (stem ++ "." ++ ext)).data =
        (stem ++ suffix ++ "." ++ ext).data := by
      show derivedPathData suffix.data (stem ++ "." ++ ext).data =
        (stem ++ suffix ++ "." ++ ext).data
      rw [hdata, derivedPathData_split _ _ _ h]
      simp [String.data_append]
    exact string_eq_of_data hmain
  · intro p h
    have hmain : (derivedPath suffix p).data = (suffix ++ "." ++ p).data := by
      show derivedPathData suffix.data p.data = (suffix ++ "." ++ p).data
      rw [derivedPathData_no_dot _ _ h]
      simp [String.data_append]
    exact string_eq_of_data hmain

/-- C4 amended, witness: `a.b.c` maps to `a.b_fixed.c` and the dotless
`Makefile` maps to `_fixed.Makefile`. -/
theorem C4_amended_derivation_witness :
    derivedPath ("_fixed") ("a.b" ++ "." ++ "c") = "a.b" ++ "_fixed" ++ "." ++ "c" ∧
    derivedPath ("_fixed") ("Makefile") = "_fixed" ++ "." ++ "Makefile" :=
  ⟨(C4_amended_derivation ("_fixed")).1 ("a.b") ("c") (by decide),
   (C4_amended_derivation ("_fixed")).2 ("Makefile") (by decide)⟩

/-- C5: every failure raised inside the try block of the writer is caught and
turned into a human-readable error message, with the file system left
unchanged; the writer returns a plain pair, never a propagated exception. -/
theorem C5_write_failure_caught :
    (∀ diskErr fs p c e,
        writeTextFileBody ("_fixed") fixOkMsg diskErr fs p c = Except.error e →
        writeTextFileFix diskErr fs p c =
          (fs, "Error creating the edited file: " ++ e)) ∧
    (∀ diskErr fs p c e,
        writeTextFileBody ("_edited") editOkMsg diskErr fs p c = Except.error e →
        writeTextFileEdit diskErr fs p c =
          (fs, "Error creating the edited file: " ++ e)) ∧
    (∀ e fs p c, writeTextFileFix (some e) fs p c =
        (fs, "Error creating the edited file: " ++ e)) ∧
    (∀ e fs p c, writeTextFileEdit (some e) fs p c =
        (fs, "Error creating the edited file: " ++ e)) := by
  refine ⟨?_, ?_, ?_, ?_⟩
  · intro diskErr fs p c e h
    simp [writeTextFileFix, writeTextFileGen, h]
  · intro diskErr fs p c e h
    simp [writeTextFileEdit, writeTextFileGen, h]
  · intro e fs p c
    simp [writeTextFileFix, writeTextFileGen, writeTextFileBody, writeFilePrim,
      Except.bind]
  · intro e fs p c
    simp [writeTextFileEdit, writeTextFileGen, writeTextFileBody, writeFilePrim,
      Except.bind]

/-- C5 witness: a concrete disk failure is returned as the error message. -/
theorem C5_write_failure_caught_witness :
    writeTextFileFix (some ("EIO: i/o error")) fsEmpty ("a.py") ("z") =
      (fsEmpty, "Error creating the edited file: " ++ "EIO: i/o error") :=
  C5_write_failure_caught.1 (some ("EIO: i/o error")) fsEmpty ("a.py") ("z")
    ("EIO: i/o error") rfl

/-- C9: the derived output path always differs from the input path (the
suffix construction lengthens every path), so neither writer ever overwrites
the original file: the content stored at the input path is unchanged by the
write, whether it succeeds or fails. -/
theorem C9_original_file_untouched :
    (∀ p : String, derivedPath ("_fixed") p ≠ p) ∧
    (∀ p : String, derivedPath ("_edited") p ≠ p) ∧
    (∀ diskErr fs p c, (writeTextFileFix diskErr fs p c).1 p = fs p) ∧
    (∀ diskErr fs p c, (writeTextFileEdit diskErr fs p c).1 p = fs p) :=
  ⟨fun p => derivedPath_ne _ p (by decide),
   fun p => derivedPath_ne _ p (by decide),
   fun d fs p c => writeTextFileGen_frame _ _ (by decide) d fs p c,
   fun d fs p c => writeTextFileGen_frame _ _ (by decide) d fs p c⟩

/-! ### Data model of the workflows

Structured response payloads (the zod schemas) and the session state created
by `createStatefulMiddleware` for each command.
-/

/-- ERROR_SCHEMA payload of the fix command. -/
structure ErrorResp where
  error_explanation : String
  proposed_fix : String
  deriving DecidableEq, Repr

/-- FIX_SCHEMA payload of the fix command. -/
structure FixResp where
  fixed_content : String
  deriving DecidableEq, Repr

/-- CODE_SCHEMA payload of the edit command. -/
structure CodeResp where
  code_content : String
  deriving DecidableEq, Repr

/-- JUDGING_SCHEMA payload of the edit and fix commands. -/
structure JudgeResp where
  pass : Bool
  feedback : String
  deriving DecidableEq, Repr

/-- Session state of the fix workflow. -/
structure FixState where
  generatedContent : String
  filePath : String
  fileContent : String
  codeLanguage : String
  error : String
  errorDetails : String
  numIterations : Nat
  maxIterations : Nat
  deriving DecidableEq, Repr

/-- Initial fix session state. -/
def initFixState : FixState :=
  { generatedContent := "", filePath := "", fileContent := "",
    codeLanguage := "", error := "", errorDetails := "",
    numIterations := 0, maxIterations := 3 }

/-- Session state of the edit workflow. -/
structure EditState where
  generatedContent : String
  filePath : String
  codeLanguage : String
  feature : String
  implementationDetails : String
  numIterations : Nat
  maxIterations : Nat
  deriving DecidableEq, Repr

/-- Initial edit session state. -/
def initEditState : EditState :=
  { generatedContent := "", filePath := "", codeLanguage := "",
    feature := "", implementationDetails := "",
    numIterations := 0, maxIterations := 3 }

/-- The workflow events of the fix command. -/
inductive FixEvent where
  | start (filePath error errorDetails codeLanguage : String)
  | errorEvaluation (error_explanation proposed_fix : String)
  | generation (generatedContent : String)
  | judging (pass : Bool) (feedback : String)
  | writing (content : String)
  | result (message : String)
  deriving DecidableEq, Repr

/-- The workflow events of the edit command. -/
inductive EditEvent where
  | start (filePath feature implementationDetails codeLanguage : String)
  | generation (generatedContent : String)
  | judging (pass : Bool) (feedback : String)
  | writing (content : String)
  | result (message : String)
  deriving DecidableEq, Repr

/-! ### Handlers with the validation step made explicit

Each handler first performs its effects in source order: read the file,
obtain the model response, run `JSON.parse` followed by the schema `parse`
(either step may throw, modelled as the `Except.error` case of the `resp`
argument), and only then assign the session-state fields.  The returned pair
is the state as left by the handler together with either the next event or
the propagated exception.
-/

/-- startEvent handler of the fix workflow: read, chat, parse, then assign
`filePath`, `codeLanguage`, `error`, `errorDetails`, `fileContent`. -/
def fixStartChecked (fs : Fs) (s : FixState)
    (filePath error errorDetails codeLanguage : String)
    (resp : Except String ErrorResp) : FixState × Except String FixEvent :=
  match readTextFile fs filePath with
  | .error e => (s, .error e)
  | .ok fileContent =>
    match resp with
    | .error e => (s, .error e)
    | .ok r =>
      ({ s with
          filePath := filePath,
          codeLanguage := codeLanguage,
          error := error,
          errorDetails := errorDetails,
          fileContent := fileContent },
        .ok (.errorEvaluation r.error_explanation r.proposed_fix))

/-- errorEvaluationEvent handler of the fix workflow: the iteration counter
is incremented before the model call, the response is then parsed, and only
a validated response reaches `generatedContent`; after that the hard cap
decides between judging and writing. -/
def fixErrorEvaluationChecked (s : FixState) (resp : Except String FixResp) :
    FixState × Except String FixEvent :=
  let s1 := { s with numIterations := s.numIterations + 1 }
  match resp with
  | .error e => (s1, .error e)
  | .ok r =>
    let s2 := { s1 with generatedContent := r.fixed_content }
    if s1.numIterations > s1.maxIterations then (s2, .ok (.writing r.fixed_content))
    else (s2, .ok (.generation r.fixed_content))

/-- startEvent handler of the edit workflow: read, chat, parse, then
increment the counter and assign the state fields, ending on the cap
decision. -/
def editStartChecked (fs : Fs) (s : EditState)
    (filePath feature implementationDetails codeLanguage : String)
    (resp : Except String CodeResp) : EditState × Except String EditEvent :=
  match readTextFile fs filePath with
  | .error e => (s, .error e)
  | .ok _fileContent =>
    match resp with
    | .error e => (s, .error e)
    | .ok r =>
      let s1 := { s with
          numIterations := s.numIterations + 1,
          filePath := filePath,
          codeLanguage := codeLanguage,
          generatedContent := r.code_content,
          feature := feature,
          implementationDetails := implementationDetails }
      if s1.numIterations > s1.maxIterations then (s1, .ok (.writing r.code_content))
      else (s1, .ok (.generation r.code_content))

/-- C6: a model response that fails JSON parsing or schema validation is
rejected before any of its fields reach the session state: in the fix and
edit start handlers the state is returned untouched, and in the fix
error-evaluation handler only the iteration counter (which does not come
from the response) has moved, while `generatedContent` and every other field
keep their previous values. -/
theorem C6_reject_before_state_mutation :
    (∀ fs s fp er ed lg e,
        (fixStartChecked fs s fp er ed lg (Except.error e)).1 = s) ∧
    (∀ fs s fp er ed lg e, ∃ msg,
        (fixStartChecked fs s fp er ed lg (Except.error e)).2 = Except.error msg) ∧
    (∀ s e, fixErrorEvaluationChecked s (Except.error e) =
        ({ s with numIterations := s.numIterations + 1 }, Except.error e)) ∧
    (∀ s e, (fixErrorEvaluationChecked s (Except.error e)).1.generatedContent =
        s.generatedContent) ∧
    (∀ fs s fp ft impl lg e,
        (editStartChecked fs s fp ft impl lg (Except.error e)).1 = s) ∧
    (∀ fs s fp ft impl lg e, ∃ msg,
        (editStartChecked fs s fp ft impl lg (Except.error e)).2 =
          Except.error msg) := by
  refine ⟨?_, ?_, ?_, ?_, ?_, ?_⟩
  · intro fs s fp er ed lg e
    cases h : readTextFile fs fp <;> simp [fixStartChecked, h]
  · intro fs s fp er ed lg e
    cases h : readTextFile fs fp with
    | error msg => exact ⟨msg, by simp [fixStartChecked, h]⟩
    | ok fc => exact ⟨e, by simp [fixStartChecked, h]⟩
  · intro s e
    rfl
  · intro s e
    rfl
  · intro fs s fp ft impl lg e
    cases h : readTextFile fs fp <;> simp [editStartChecked, h]
  · intro fs s fp ft impl lg e
    cases h : readTextFile fs fp with
    | error msg => exact ⟨msg, by simp [editStartChecked, h]⟩
    | ok fc => exact ⟨e, by simp [editStartChecked, h]⟩

/-- C10: reading the input file is not guarded: when the file is absent the
bare `readTextFile` returns the propagated exception rather than an error
string, and each start handler forwards that exception out of the handler
with the session state untouched, in contrast to the write boundary. -/
theorem C10_read_unguarded :
    (∀ fs p, fs p = none → readTextFile fs p =
        Except.error ("ENOENT: no such file or directory, open " ++ p)) ∧
    (∀ fs s fp er ed lg resp, fs fp = none →
        fixStartChecked fs s fp er ed lg resp =
          (s, Except.error ("ENOENT: no such file or directory, open " ++ fp))) ∧
    (∀ fs s fp ft impl lg resp, fs fp = none →
        editStartChecked fs s fp ft impl lg resp =
          (s, Except.error ("ENOENT: no such file or directory, open " ++ fp))) := by
  refine ⟨?_, ?_, ?_⟩
  · intro fs p h
    simp [readTextFile, readFilePrim, h]
  · intro fs s fp er ed lg resp h
    simp [fixStartChecked, readTextFile, readFilePrim, h]
  · intro fs s fp ft impl lg resp h
    simp [editStartChecked, readTextFile, readFilePrim, h]

/-- C10 witness: reading a missing file through the fix start handler
propagates the ENOENT exception. -/
theorem C10_read_unguarded_witness :
    fixStartChecked fsEmpty initFixState ("missing.py") ("E") ("D") ("py")
        (Except.ok { error_explanation := "x", proposed_fix := "y" }) =
      (initFixState,
        Except.error ("ENOENT: no such file or directory, open " ++ "missing.py")) :=
  C10_read_unguarded.2.1 fsEmpty initFixState ("missing.py") ("E") ("D") ("py")
    (Except.ok { error_explanation := "x", proposed_fix := "y" }) rfl

/-! ### The explain command: schema-checked rendering

`parseAndRenderAnalysis` is the only place in the repository that catches a
schema-validation failure; it logs a header followed by one message per
offending field.  The console output is modelled as the list of logged
lines, colored exactly as by picocolors.
-/

/-- picocolors `blue`. -/
def blue (s : String) : String := "\x1b[34m" ++ s ++ "\x1b[39m"

/-- picocolors `yellow`. -/
def yellow (s : String) : String := "\x1b[33m" ++ s ++ "\x1b[39m"

/-- picocolors `magenta`. -/
def magenta (s : String) : String := "\x1b[35m" ++ s ++ "\x1b[39m"

/-- picocolors `cyan`. -/
def cyan (s : String) : String := "\x1b[36m" ++ s ++ "\x1b[39m"

/-- picocolors `white`. -/
def white (s : String) : String := "\x1b[37m" ++ s ++ "\x1b[39m"

/-- picocolors `gray`. -/
def gray (s : String) : String := "\x1b[90m" ++ s ++ "\x1b[39m"

/-- picocolors `italic`. -/
def italic (s : String) : String := "\x1b[3m" ++ s ++ "\x1b[23m"

/-- The separator `'─'.repeat(50)`. -/
def sepLine : String := String.mk (List.replicate 50 '─')

/-- SCHEMA payload of the explain command. -/
structure AnalysisResult where
  code_overview : String
  focal_points : List String
  core_concepts_to_learn : List String
  extra_information : String
  deriving DecidableEq, Repr

/-- One entry of `error.errors` of a zod validation failure: the path of the
offending field together with its validation message. -/
structure ZodIssue where
  path : List String
  message : String
  deriving DecidableEq, Repr

/-- Outcome of `JSON.parse` followed by `SCHEMA.parse` on the message
content: success, a zod validation failure with its per-field issues, or any
other parse failure. -/
inductive ParseOutcome where
  | ok (a : AnalysisResult)
  | zodError (issues : List ZodIssue)
  | otherError (error : String)
  deriving DecidableEq, Repr

/-- `renderAnalysis`: the lines logged for a validated analysis. -/
def renderAnalysis (a : AnalysisResult) : List String :=
  [bold (blue ("📋 Code Analysis Report")), "",
   bold (green ("🔍 Code Overview")), gray sepLine, white a.code_overview, "",
   bold (yellow ("🎯 Focal Points")), gray sepLine]
  ++ a.focal_points.enum.map
      (fun ie => cyan (toString (ie.1 + 1) ++ ". ") ++ white ie.2)
  ++ ["", bold (magenta ("📚 Core Concepts to Learn")), gray sepLine]
  ++ a.core_concepts_to_learn.map (fun concept => magenta ("• ") ++ white concept)
  ++ ["", bold (red ("💡 Extra Information")), gray sepLine,
      white a.extra_information]

/-- `parseAndRenderAnalysis`: renders a valid response; on a zod error logs
the header and one line per offending field; on any other failure logs a
single parse-failure line.  Nothing is rethrown. -/
def parseAndRenderAnalysis : ParseOutcome → List String
  | .ok a => renderAnalysis a
  | .zodError issues =>
      red ("❌ Schema validation failed:") ::
        issues.map (fun err =>
          red ("  - " ++ String.intercalate (".") err.path ++ ": " ++ err.message))
  | .otherError e => [red ("❌ Failed to parse message content:") ++ " " ++ e]

/-- A sample file system with a single file `f.py`. -/
def fsSample : Fs := fun p => if p = "f.py" then some ("print(1)\n") else none

/-- C8 counterexample: the claim does not hold for every command.  In the fix
and edit workflows a concrete schema-validation failure is not logged at all:
it propagates out of the start handler as an exception (crashing the
command), instead of being caught and reported per field as in explain. -/
theorem C8_counterexample :
    (fixStartChecked fsSample initFixState ("f.py") ("E") ("D") ("py")
        (Except.error ("ZodError: expected string at error_explanation"))).2 =
      Except.error ("ZodError: expected string at error_explanation") ∧
    (editStartChecked fsSample initEditState ("f.py") ("F") ("D") ("py")
        (Except.error ("ZodError: expected string at code_content"))).2 =
      Except.error ("ZodError: expected string at code_content") := by
  constructor <;> rfl

/-- C8 amended: in the explain command a schema-validation failure is logged
with one message per offending field (the field path joined with dots,
followed by the validation message) and does not crash; in the edit and fix
commands a schema-validation failure is not caught inside the handler and
propagates as an exception. -/
theorem C8_amended_per_field_logging :
    (∀ issues, parseAndRenderAnalysis (ParseOutcome.zodError issues) =
        red ("❌ Schema validation failed:") ::
          issues.map (fun err =>
            red ("  - " ++ String.intercalate (".") err.path ++ ": " ++ err.message))) ∧
    (∀ issues, (parseAndRenderAnalysis (ParseOutcome.zodError issues)).length =
        issues.length + 1) ∧
    (∀ fs s fp er ed lg e, ∃ msg,
        (fixStartChecked fs s fp er ed lg (Except.error e)).2 = Except.error msg) ∧
    (∀ s e, (fixErrorEvaluationChecked s (Except.error e)).2 = Except.error e) ∧
    (∀ fs s fp ft impl lg e, ∃ msg,
        (editStartChecked fs s fp ft impl lg (Except.error e)).2 =
          Except.error msg) := by
  refine ⟨fun issues => rfl, fun issues => by simp [parseAndRenderAnalysis], ?_, ?_, ?_⟩
  · intro fs s fp er ed lg e
    cases h : readTextFile fs fp with
    | error msg => exact ⟨msg, by simp [fixStartChecked, h]⟩
    | ok fc => exact ⟨e, by simp [fixStartChecked, h]⟩
  · intro s e
    rfl
  · intro fs s fp ft impl lg e
    cases h : readTextFile fs fp with
    | error msg => exact ⟨msg, by simp [editStartChecked, h]⟩
    | ok fc => exact ⟨e, by simp [editStartChecked, h]⟩

/-! ### Substring occurrence

Used to state which parts of the accumulated context occur verbatim inside a
generation request.
-/

/-- Does `pat` occur at the head of the second list? -/
def beginsWith : List Char → List Char → Bool
  | [], _ => true
  | _ :: _, [] => false
  | a :: as, b :: bs => (a == b) && beginsWith as bs

/-- Does `pat` occur contiguously anywhere inside the second list? -/
def occursIn (pat : List Char) : List Char → Bool
  | [] => pat.isEmpty
  | c :: cs => beginsWith pat (c :: cs) || occursIn pat cs

theorem beginsWith_append (l r : List Char) : beginsWith l (l ++ r) = true := by
  induction l with
  | nil => rfl
  | cons a as ih => simp [beginsWith, ih]

theorem occursIn_append_left (pat pre l : List Char) (h : occursIn pat l = true) :
    occursIn pat (pre ++ l) = true := by
  induction pre with
  | nil => simpa using h
  | cons c cs ih => simp [occursIn, ih]

theorem occursIn_here (pat post : List Char) : occursIn pat (pat ++ post) = true := by
  cases pat with
  | nil =>
    cases post with
    | nil => rfl
    | cons c cs => rfl
  | cons a as =>
    have hb := beginsWith_append (a :: as) post
    simp only [List.cons_append] at hb ⊢
    simp [occursIn, hb]

theorem occursIn_refl (pat : List Char) : occursIn pat pat = true := by
  simpa using occursIn_here pat []

/-! ### Iteration of a step function -/

/-- Iterate a step function `n` times. -/
def iterSteps {α : Type} (f : α → α) : Nat → α → α
  | 0, a => a
  | n + 1, a => iterSteps f n (f a)

/-- The first `n` observations along the iteration (the view of each
configuration before its step). -/
def iterTrace {α β : Type} (f : α → α) (view : α → β) : Nat → α → List β
  | 0, _ => []
  | n + 1, a => view a :: iterTrace f view n (f a)

/-- Count the entries of a list satisfying a Boolean predicate. -/
def countTrue {α : Type} (p : α → Bool) : List α → Nat
  | [] => 0
  | a :: l => (if p a then 1 else 0) + countTrue p l

theorem iterSteps_add {α : Type} (f : α → α) (m n : Nat) (a : α) :
    iterSteps f (m + n) a = iterSteps f n (iterSteps f m a) := by
  induction m generalizing a with
  | zero => simp [iterSteps]
  | succ m ih =>
    have hmn : m + 1 + n = (m + n) + 1 := by omega
    rw [hmn]
    simp only [iterSteps]
    exact ih (f a)

theorem iterTrace_add {α β : Type} (f : α → α) (v : α → β) (m n : Nat) (a : α) :
    iterTrace f v (m + n) a =
      iterTrace f v m a ++ iterTrace f v n (iterSteps f m a) := by
  induction m generalizing a with
  | zero => simp [iterTrace, iterSteps]
  | succ m ih =>
    have hmn : m + 1 + n = (m + n) + 1 := by omega
    rw [hmn]
    simp only [iterTrace, iterSteps]
    rw [ih (f a)]
    simp

theorem countTrue_append {α : Type} (p : α → Bool) (l1 l2 : List α) :
    countTrue p (l1 ++ l2) = countTrue p l1 + countTrue p l2 := by
  induction l1 with
  | nil => simp [countTrue]
  | cons a l ih => simp [countTrue, ih, Nat.add_assoc]

theorem iterSteps_fix {α : Type} (f : α → α) (a : α) (h : f a = a) :
    ∀ n, iterSteps f n a = a
  | 0 => rfl
  | n + 1 => by
    simp only [iterSteps, h]
    exact iterSteps_fix f a h n

theorem countTrue_iterTrace_fix {α β : Type} (f : α → α) (v : α → β)
    (p : β → Bool) (a : α) (hfix : f a = a) (hp : p (v a) = false) :
    ∀ n, countTrue p (iterTrace f v n a) = 0
  | 0 => rfl
  | n + 1 => by
    simp only [iterTrace, hfix, countTrue, hp]
    simpa using countTrue_iterTrace_fix f v p a hfix hp n

theorem countTrue_le_of_terminal {α β : Type} (f : α → α) (v : α → β)
    (p : β → Bool) (a : α) (K G : Nat)
    (hfix : f (iterSteps f K a) = iterSteps f K a)
    (hp : p (v (iterSteps f K a)) = false)
    (hG : countTrue p (iterTrace f v K a) = G) :
    ∀ n, countTrue p (iterTrace f v n a) ≤ G := by
  intro n
  rcases Nat.le_total n K with h | h
  · have hdecomp : iterTrace f v K a =
        iterTrace f v n a ++ iterTrace f v (K - n) (iterSteps f n a) := by
      rw [← iterTrace_add]
      congr 1
      omega
    rw [hdecomp, countTrue_append] at hG
    omega
  · have hdecomp : iterTrace f v n a =
        iterTrace f v K a ++ iterTrace f v (n - K) (iterSteps f K a) := by
      rw [← iterTrace_add]
      congr 1
      omega
    rw [hdecomp, countTrue_append, hG,
      countTrue_iterTrace_fix f v p _ hfix hp]
    omega

/-! ### The generate-judge-retry state machines

Each workflow is a deterministic machine on a configuration consisting of
the session state and the pending event; the environment (model, judge,
disk) is an oracle.  The oracle responses are indexed by the iteration
counter at call time, which identifies the call uniquely along any run.
These machines model runs whose file read succeeds (the failing read is
settled by `C10_read_unguarded`) and whose responses validate (the failing
validation by `C6_reject_before_state_mutation`).
-/

/-- The replacement error details built by the fix judging handler on a
failed verdict. -/
def fixRetryDetails (previousFix feedback : String) : String :=
  "Your previous fix:\n\n\x27\x27\x27\n" ++ previousFix ++
    "\n\x27\x27\x27\n\nDid not pass the evaluation, and this is the feedback on it: "
    ++ feedback

/-- The replacement implementation details built by the edit judging handler
on a failed verdict. -/
def editRetryDetails (previousImplementation feedback : String) : String :=
  "Your previous implementation:\n\n\x27\x27\x27\n" ++ previousImplementation ++
    "\n\x27\x27\x27\n\nDid not pass the evaluation, and this is the feedback on it: "
    ++ feedback

/-- The user message of the request sent by the fix start handler (the
double space after `would` is present in the source). -/
def fixStartUserMsg (codeLanguage filePath error errorDetails fileContent : String) :
    String :=
  "I am working as a " ++ codeLanguage ++ " developer and I would  like to fix "
    ++ filePath ++ " because of this error: " ++ error
    ++ ". These are some error details: " ++ errorDetails
    ++ ". This is the content of the file you should edit for me:\n\n\x27\x27\x27\n"
    ++ fileContent ++ "\n\x27\x27\x27\n\n. Please generate the edited code."

/-- The user message of the generation request sent by the edit start
handler. -/
def editStartUserMsg
    (codeLanguage filePath feature implementationDetails fileContent : String) :
    String :=
  "I am working as a " ++ codeLanguage ++ " developer and I would like to edit "
    ++ filePath ++ " with this feature: " ++ feature
    ++ "; following these implementation details: " ++ implementationDetails
    ++ ". This is the content of the file you should edit for me:\n\n\x27\x27\x27\n"
    ++ fileContent ++ "\n\x27\x27\x27\n\n. Please generate the edited code."

/-- Environment of the fix workflow: validated responses of the explanation,
generation and judge calls (indexed by the iteration counter at call time),
the content read from the input file, and the disk state seen by the
writer. -/
structure FixOracle where
  evalResp : Nat → ErrorResp
  genResp : Nat → FixResp
  judgeResp : Nat → JudgeResp
  fileContent : String
  diskErr : Option String
  fs : Fs

/-- Environment of the edit workflow. -/
structure EditOracle where
  genResp : Nat → CodeResp
  judgeResp : Nat → JudgeResp
  fileContent : String
  diskErr : Option String
  fs : Fs

/-- One transition of the fix workflow: run the handler of the pending
event.  A result event ends the stream loop, so its configuration is kept
fixed. -/
def fixStep (o : FixOracle) : FixState × FixEvent → FixState × FixEvent
  | (s, .start filePath error errorDetails codeLanguage) =>
    let r := o.evalResp s.numIterations
    ({ s with
        filePath := filePath,
        codeLanguage := codeLanguage,
        error := error,
        errorDetails := errorDetails,
        fileContent := o.fileContent },
      .errorEvaluation r.error_explanation r.proposed_fix)
  | (s, .errorEvaluation _ee _pf) =>
    let s1 := { s with numIterations := s.numIterations + 1 }
    let r := o.genResp s.numIterations
    let s2 := { s1 with generatedContent := r.fixed_content }
    if s1.numIterations > s1.maxIterations then (s2, .writing r.fixed_content)
    else (s2, .generation r.fixed_content)
  | (s, .generation _g) =>
    let j := o.judgeResp (s.numIterations - 1)
    (s, .judging j.pass j.feedback)
  | (s, .judging pass feedback) =>
    if pass then (s, .writing s.generatedContent)
    else (s, .start s.filePath s.error
        (fixRetryDetails s.generatedContent feedback) s.codeLanguage)
  | (s, .writing content) =>
    (s, .result (writeTextFileFix o.diskErr o.fs s.filePath content).2)
  | (s, .result m) => (s, .result m)

/-- One transition of the edit workflow. -/
def editStep (o : EditOracle) : EditState × EditEvent → EditState × EditEvent
  | (s, .start filePath feature implementationDetails codeLanguage) =>
    let r := o.genResp s.numIterations
    let s1 := { s with
        numIterations := s.numIterations + 1,
        filePath := filePath,
        codeLanguage := codeLanguage,
        generatedContent := r.code_content,
        feature := feature,
        implementationDetails := implementationDetails }
    if s1.numIterations > s1.maxIterations then (s1, .writing r.code_content)
    else (s1, .generation r.code_content)
  | (s, .generation _g) =>
    let j := o.judgeResp (s.numIterations - 1)
    (s, .judging j.pass j.feedback)
  | (s, .judging pass feedback) =>
    if pass then (s, .writing s.generatedContent)
    else (s, .start s.filePath s.feature
        (editRetryDetails s.generatedContent feedback) s.codeLanguage)
  | (s, .writing content) =>
    (s, .result (writeTextFileEdit o.diskErr o.fs s.filePath content).2)
  | (s, .result m) => (s, .result m)

/-- Is the pending fix event the error-evaluation step, whose handler makes
the generation request? -/
def isFixGen : FixEvent → Bool
  | .errorEvaluation _ _ => true
  | _ => false

/-- Is the pending fix event the judge step? -/
def isFixJudging : FixEvent → Bool
  | .judging _ _ => true
  | _ => false

/-- Is the pending fix event the final result? -/
def isFixResult : FixEvent → Bool
  | .result _ => true
  | _ => false

/-- Is the pending edit event the start step, whose handler makes the
generation request? -/
def isEditGen : EditEvent → Bool
  | .start _ _ _ _ => true
  | _ => false

/-- Is the pending edit event the judge step? -/
def isEditJudging : EditEvent → Bool
  | .judging _ _ => true
  | _ => false

/-- Is the pending edit event the final result? -/
def isEditResult : EditEvent → Bool
  | .result _ => true
  | _ => false

/-- Run the fix workflow for `n` handler steps from `sendEvent(startEvent)`
on the fresh session state. -/
def fixRun (o : FixOracle) (n : Nat)
    (filePath error errorDetails codeLanguage : String) : FixState × FixEvent :=
  iterSteps (fixStep o) n
    (initFixState, .start filePath error errorDetails codeLanguage)

/-- The pending events seen along the first `n` steps of the fix run. -/
def fixRunTrace (o : FixOracle) (n : Nat)
    (filePath error errorDetails codeLanguage : String) : List FixEvent :=
  iterTrace (fixStep o) Prod.snd n
    (initFixState, .start filePath error errorDetails codeLanguage)

/-- Run the edit workflow for `n` handler steps. -/
def editRun (o : EditOracle) (n : Nat)
    (filePath feature implementationDetails codeLanguage : String) :
    EditState × EditEvent :=
  iterSteps (editStep o) n
    (initEditState, .start filePath feature implementationDetails codeLanguage)

/-- The pending events seen along the first `n` steps of the edit run. -/
def editRunTrace (o : EditOracle) (n : Nat)
    (filePath feature implementationDetails codeLanguage : String) :
    List EditEvent :=
  iterTrace (editStep o) Prod.snd n
    (initEditState, .start filePath feature implementationDetails codeLanguage)

theorem fixStep_result_fix (o : FixOracle) (c : FixState × FixEvent)
    (h : isFixResult c.2 = true) : fixStep o c = c := by
  obtain ⟨s, e⟩ := c
  cases e <;> simp_all [isFixResult, fixStep]

theorem editStep_result_fix (o : EditOracle) (c : EditState × EditEvent)
    (h : isEditResult c.2 = true) : editStep o c = c := by
  obtain ⟨s, e⟩ := c
  cases e <;> simp_all [isEditResult, editStep]

theorem isFixGen_false_of_result {e : FixEvent} (h : isFixResult e = true) :
    isFixGen e = false := by
  cases e <;> simp_all [isFixResult, isFixGen]

theorem isEditGen_false_of_result {e : EditEvent} (h : isEditResult e = true) :
    isEditGen e = false := by
  cases e <;> simp_all [isEditResult, isEditGen]

theorem iterSteps_absorb {α : Type} (f : α → α) (K N : Nat) (a : α)
    (hKN : K ≤ N) (hfix : f (iterSteps f K a) = iterSteps f K a) :
    iterSteps f N a = iterSteps f K a := by
  have h : N = K + (N - K) := by omega
  rw [h, iterSteps_add]
  exact iterSteps_fix _ _ hfix _

theorem fixRun_terminal (o : FixOracle) (fp er ed lg : String) :
    ∃ K G, K ≤ 24 ∧ G ≤ 4 ∧
      isFixResult (fixRun o K fp er ed lg).2 = true ∧
      countTrue isFixGen (fixRunTrace o K fp er ed lg) = G := by
  cases h0 : (o.judgeResp 0).pass with
  | true =>
    refine ⟨5, 1, by omega, by omega, ?_, ?_⟩
    · simp [fixRun, iterSteps, fixStep, initFixState, isFixResult, h0]
    · simp [fixRunTrace, iterTrace, iterSteps, fixStep, initFixState, countTrue,
        isFixGen, h0]
  | false =>
    cases h1 : (o.judgeResp 1).pass with
    | true =>
      refine ⟨9, 2, by omega, by omega, ?_, ?_⟩
      · simp [fixRun, iterSteps, fixStep, initFixState, isFixResult, h0, h1]
      · simp [fixRunTrace, iterTrace, iterSteps, fixStep, initFixState, countTrue,
          isFixGen, h0, h1]
    | false =>
      cases h2 : (o.judgeResp 2).pass with
      | true =>
        refine ⟨13, 3, by omega, by omega, ?_, ?_⟩
        · simp [fixRun, iterSteps, fixStep, initFixState, isFixResult, h0, h1, h2]
        · simp [fixRunTrace, iterTrace, iterSteps, fixStep, initFixState, countTrue,
            isFixGen, h0, h1, h2]
      | false =>
        refine ⟨15, 4, by omega, by omega, ?_, ?_⟩
        · simp [fixRun, iterSteps, fixStep, initFixState, isFixResult, h0, h1, h2]
        · simp [fixRunTrace, iterTrace, iterSteps, fixStep, initFixState, countTrue,
            isFixGen, h0, h1, h2]

theorem editRun_terminal (o : EditOracle) (fp ft impl lg : String) :
    ∃ K G, K ≤ 24 ∧ G ≤ 4 ∧
      isEditResult (editRun o K fp ft impl lg).2 = true ∧
      countTrue isEditGen (editRunTrace o K fp ft impl lg) = G := by
  cases h0 : (o.judgeResp 0).pass with
  | true =>
    refine ⟨4, 1, by omega, by omega, ?_, ?_⟩
    · simp [editRun, iterSteps, editStep, initEditState, isEditResult, h0]
    · simp [editRunTrace, iterTrace, iterSteps, editStep, initEditState, countTrue,
        isEditGen, h0]
  | false =>
    cases h1 : (o.judgeResp 1).pass with
    | true =>
      refine ⟨7, 2, by omega, by omega, ?_, ?_⟩
      · simp [editRun, iterSteps, editStep, initEditState, isEditResult, h0, h1]
      · simp [editRunTrace, iterTrace, iterSteps, editStep, initEditState, countTrue,
          isEditGen, h0, h1]
    | false =>
      cases h2 : (o.judgeResp 2).pass with
      | true =>
        refine ⟨10, 3, by omega, by omega, ?_, ?_⟩
        · simp [editRun, iterSteps, editStep, initEditState, isEditResult, h0, h1, h2]
        · simp [editRunTrace, iterTrace, iterSteps, editStep, initEditState, countTrue,
            isEditGen, h0, h1, h2]
      | false =>
        refine ⟨11, 4, by omega, by omega, ?_, ?_⟩
        · simp [editRun, iterSteps, editStep, initEditState, isEditResult, h0, h1, h2]
        · simp [editRunTrace, iterTrace, iterSteps, editStep, initEditState, countTrue,
            isEditGen, h0, h1, h2]

/-- C1: for every oracle — hence regardless of the judge verdicts — the
edit and fix loops terminate: within 24 handler steps the configuration is
the final result event, and along the whole run at most 4 = N + 1
generation requests are made.  The iteration counter starts at 0, the
generation handler increments it exactly once per generation, and as soon
as the incremented counter exceeds maxIterations = 3 that handler proceeds
unconditionally to writing. -/
theorem C1_termination_and_bound :
    initFixState.numIterations = 0 ∧ initFixState.maxIterations = 3 ∧
    initEditState.numIterations = 0 ∧ initEditState.maxIterations = 3 ∧
    (∀ o s ee pf,
        ((fixStep o (s, FixEvent.errorEvaluation ee pf)).1).numIterations =
          s.numIterations + 1) ∧
    (∀ o s fp ft impl lg,
        ((editStep o (s, EditEvent.start fp ft impl lg)).1).numIterations =
          s.numIterations + 1) ∧
    (∀ o s ee pf, s.numIterations + 1 > s.maxIterations →
        (fixStep o (s, FixEvent.errorEvaluation ee pf)).2 =
          FixEvent.writing (o.genResp s.numIterations).fixed_content) ∧
    (∀ o s fp ft impl lg, s.numIterations + 1 > s.maxIterations →
        (editStep o (s, EditEvent.start fp ft impl lg)).2 =
          EditEvent.writing (o.genResp s.numIterations).code_content) ∧
    (∀ o fp er ed lg, isFixResult (fixRun o 24 fp er ed lg).2 = true) ∧
    (∀ o n fp er ed lg, countTrue isFixGen (fixRunTrace o n fp er ed lg) ≤ 4) ∧
    (∀ o fp ft impl lg, isEditResult (editRun o 24 fp ft impl lg).2 = true) ∧
    (∀ o n fp ft impl lg,
        countTrue isEditGen (editRunTrace o n fp ft impl lg) ≤ 4) := by
  refine ⟨rfl, rfl, rfl, rfl, ?_, ?_, ?_, ?_, ?_, ?_, ?_, ?_⟩
  · intro o s ee pf
    by_cases h : s.numIterations + 1 > s.maxIterations <;> simp [fixStep, h]
  · intro o s fp ft impl lg
    by_cases h : s.numIterations + 1 > s.maxIterations <;> simp [editStep, h]
  · intro o s ee pf h
    simp [fixStep, h]
  · intro o s fp ft impl lg h
    simp [editStep, h]
  · intro o fp er ed lg
    obtain ⟨K, G, hK, hG, hres, hcnt⟩ := fixRun_terminal o fp er ed lg
    have hfix := fixStep_result_fix o _ hres
    have habsorb := iterSteps_absorb (fixStep o) K 24
      (initFixState, FixEvent.start fp er ed lg) hK hfix
    show isFixResult (iterSteps (fixStep o) 24
      (initFixState, FixEvent.start fp er ed lg)).2 = true
    rw [habsorb]
    exact hres
  · intro o n fp er ed lg
    obtain ⟨K, G, hK, hG, hres, hcnt⟩ := fixRun_terminal o fp er ed lg
    have hfix := fixStep_result_fix o _ hres
    have hp : isFixGen (Prod.snd (iterSteps (fixStep o) K
        (initFixState, FixEvent.start fp er ed lg))) = false :=
      isFixGen_false_of_result hres
    have hle := countTrue_le_of_terminal (fixStep o) Prod.snd isFixGen
      (initFixState, FixEvent.start fp er ed lg) K G hfix hp hcnt n
    exact le_trans hle hG
  · intro o fp ft impl lg
    obtain ⟨K, G, hK, hG, hres, hcnt⟩ := editRun_terminal o fp ft impl lg
    have hfix := editStep_result_fix o _ hres
    have habsorb := iterSteps_absorb (editStep o) K 24
      (initEditState, EditEvent.start fp ft impl lg) hK hfix
    show isEditResult (iterSteps (editStep o) 24
      (initEditState, EditEvent.start fp ft impl lg)).2 = true
    rw [habsorb]
    exact hres
  · intro o n fp ft impl lg
    obtain ⟨K, G, hK, hG, hres, hcnt⟩ := editRun_terminal o fp ft impl lg
    have hfix := editStep_result_fix o _ hres
    have hp : isEditGen (Prod.snd (iterSteps (editStep o) K
        (initEditState, EditEvent.start fp ft impl lg))) = false :=
      isEditGen_false_of_result hres
    have hle := countTrue_le_of_terminal (editStep o) Prod.snd isEditGen
      (initEditState, EditEvent.start fp ft impl lg) K G hfix hp hcnt n
    exact le_trans hle hG

/-- A concrete oracle whose judge always fails the artifact. -/
def oFailFix : FixOracle :=
  { evalResp := fun _ => { error_explanation := "EX", proposed_fix := "PF" },
    genResp := fun _ => { fixed_content := "GC" },
    judgeResp := fun _ => { pass := false, feedback := "FB" },
    fileContent := "FC",
    diskErr := none,
    fs := fsEmpty }

/-- C1 witness: on the concrete all-fail oracle with a full state the
generation handler writes unconditionally. -/
theorem C1_termination_and_bound_witness :
    (fixStep oFailFix ({ initFixState with numIterations := 3 },
        FixEvent.errorEvaluation ("e") ("p"))).2 =
      FixEvent.writing (oFailFix.genResp 3).fixed_content :=
  C1_termination_and_bound.2.2.2.2.2.2.1 oFailFix
    { initFixState with numIterations := 3 } ("e") ("p") (by decide)

/-- C2 counterexample: with a judge that always fails, the fix run makes 4
generation requests but only 3 judge requests before terminating in a
result: the fourth generated artifact is written without ever being
submitted to the judge, because the handler checks the iteration cap before
the judge step, not after a verdict.  The same happens in the edit run. -/
theorem C2_counterexample :
    countTrue isFixGen (fixRunTrace oFailFix 24 ("f.py") ("E") ("D") ("py")) = 4 ∧
    countTrue isFixJudging (fixRunTrace oFailFix 24 ("f.py") ("E") ("D") ("py")) = 3 ∧
    isFixResult (fixRun oFailFix 24 ("f.py") ("E") ("D") ("py")).2 = true := by
  refine ⟨?_, ?_, ?_⟩ <;> decide

/-- C2 amended: the validated artifact is submitted to the judge only in the
iterations in which the incremented counter has not exceeded maxIterations;
once it has, the artifact is written directly, without consulting the judge.
Whenever a verdict is produced, a pass writes the stored artifact and a fail
feeds the feedback into the next generation request, so the result is
written exactly when the verdict is pass or the counter exceeds N. -/
theorem C2_amended_judge_order :
    (∀ o s ee pf, s.numIterations + 1 ≤ s.maxIterations →
        (fixStep o (s, FixEvent.errorEvaluation ee pf)).2 =
          FixEvent.generation (o.genResp s.numIterations).fixed_content) ∧
    (∀ o s ee pf, s.numIterations + 1 > s.maxIterations →
        (fixStep o (s, FixEvent.errorEvaluation ee pf)).2 =
          FixEvent.writing (o.genResp s.numIterations).fixed_content) ∧
    (∀ o s g, fixStep o (s, FixEvent.generation g) =
        (s, FixEvent.judging (o.judgeResp (s.numIterations - 1)).pass
          (o.judgeResp (s.numIterations - 1)).feedback)) ∧
    (∀ o s fb, fixStep o (s, FixEvent.judging true fb) =
        (s, FixEvent.writing s.generatedContent)) ∧
    (∀ o s fb, fixStep o (s, FixEvent.judging false fb) =
        (s, FixEvent.start s.filePath s.error
          (fixRetryDetails s.generatedContent fb) s.codeLanguage)) ∧
    (∀ o s fp ft impl lg, s.numIterations + 1 ≤ s.maxIterations →
        (editStep o (s, EditEvent.start fp ft impl lg)).2 =
          EditEvent.generation (o.genResp s.numIterations).code_content) ∧
    (∀ o s fp ft impl lg, s.numIterations + 1 > s.maxIterations →
        (editStep o (s, EditEvent.start fp ft impl lg)).2 =
          EditEvent.writing (o.genResp s.numIterations).code_content) ∧
    (∀ o s g, editStep o (s, EditEvent.generation g) =
        (s, EditEvent.judging (o.judgeResp (s.numIterations - 1)).pass
          (o.judgeResp (s.numIterations - 1)).feedback)) ∧
    (∀ o s fb, editStep o (s, EditEvent.judging true fb) =
        (s, EditEvent.writing s.generatedContent)) ∧
    (∀ o s fb, editStep o (s, EditEvent.judging false fb) =
        (s, EditEvent.start s.filePath s.feature
          (editRetryDetails s.generatedContent fb) s.codeLanguage)) := by
  refine ⟨?_, ?_, ?_, ?_, ?_, ?_, ?_, ?_, ?_, ?_⟩
  · intro o s ee pf h
    have hnot : ¬ s.numIterations + 1 > s.maxIterations := by omega
    simp [fixStep, hnot]
  · intro o s ee pf h
    simp [fixStep, h]
  · intro o s g
    rfl
  · intro o s fb
    rfl
  · intro o s fb
    rfl
  · intro o s fp ft impl lg h
    have hnot : ¬ s.numIterations + 1 > s.maxIterations := by omega
    simp [editStep, hnot]
  · intro o s fp ft impl lg h
    simp [editStep, h]
  · intro o s g
    rfl
  · intro o s fb
    rfl
  · intro o s fb
    rfl

/-- A concrete edit oracle whose judge always fails the artifact. -/
def oFailEdit : EditOracle :=
  { genResp := fun _ => { code_content := "GC" },
    judgeResp := fun _ => { pass := false, feedback := "FB" },
    fileContent := "FC",
    diskErr := none,
    fs := fsEmpty }

/-- C2 amended, witness: on the fresh state the first generation goes to the
judge; on a state at the cap the artifact is written unjudged. -/
theorem C2_amended_judge_order_witness :
    (fixStep oFailFix (initFixState, FixEvent.errorEvaluation ("e") ("p"))).2 =
      FixEvent.generation (oFailFix.genResp 0).fixed_content ∧
    (editStep oFailEdit ({ initEditState with numIterations := 3 },
        EditEvent.start ("f.py") ("F") ("D") ("py"))).2 =
      EditEvent.writing (oFailEdit.genResp 3).code_content :=
  ⟨C2_amended_judge_order.1 oFailFix initFixState ("e") ("p") (by decide),
   C2_amended_judge_order.2.2.2.2.2.2.1 oFailEdit
     { initEditState with numIterations := 3 } ("f.py") ("F") ("D") ("py") (by decide)⟩

set_option maxRecDepth 100000

/-- C7 counterexample: after a failed round, the next generation request no
longer contains the user-supplied details.  In a concrete fix run whose
judge fails, the start event of round two carries replacement details built
only from the previous artifact and the feedback, and the user message of
the round-two generation request does not contain the original
`USERDETAILS0` anywhere — although the round-one request did. -/
theorem C7_counterexample :
    (fixRun oFailFix 4 ("f.py") ("E0") ("USERDETAILS0") ("py")).2 =
      FixEvent.start ("f.py") ("E0") (fixRetryDetails ("GC") ("FB")) ("py") ∧
    occursIn ("USERDETAILS0").data
      (fixStartUserMsg ("py") ("f.py") ("E0") (fixRetryDetails ("GC") ("FB")) ("FC")).data
      = false ∧
    occursIn ("USERDETAILS0").data
      (fixStartUserMsg ("py") ("f.py") ("E0") ("USERDETAILS0") ("FC")).data = true := by
  refine ⟨?_, ?_, ?_⟩ <;> decide

/-- C7 amended: after a failed verdict the next start event keeps the file
path, the original error/feature description and the language, but REPLACES
the details field: the new details are built only from the latest generated
artifact and the latest judge feedback (both occur verbatim in them, and
they are embedded verbatim in the next generation request); the previous
user-supplied details and earlier feedback are discarded rather than
accumulated. -/
theorem C7_amended_retry_context :
    (∀ o s fb, fixStep o (s, FixEvent.judging false fb) =
        (s, FixEvent.start s.filePath s.error
          (fixRetryDetails s.generatedContent fb) s.codeLanguage)) ∧
    (∀ o s fb, editStep o (s, EditEvent.judging false fb) =
        (s, EditEvent.start s.filePath s.feature
          (editRetryDetails s.generatedContent fb) s.codeLanguage)) ∧
    (∀ prev fb : String, occursIn fb.data (fixRetryDetails prev fb).data = true) ∧
    (∀ prev fb : String, occursIn prev.data (fixRetryDetails prev fb).data = true) ∧
    (∀ prev fb : String, occursIn fb.data (editRetryDetails prev fb).data = true) ∧
    (∀ prev fb : String, occursIn prev.data (editRetryDetails prev fb).data = true) ∧
    (∀ lang fp er det fc : String,
        occursIn det.data (fixStartUserMsg lang fp er det fc).data = true) ∧
    (∀ lang fp ft det fc : String,
        occursIn det.data (editStartUserMsg lang fp ft det fc).data = true) := by
  refine ⟨fun o s fb => rfl, fun o s fb => rfl, ?_, ?_, ?_, ?_, ?_, ?_⟩
  all_goals
    intros
    simp only [fixRetryDetails, editRetryDetails, fixStartUserMsg,
      editStartUserMsg, String.data_append, List.append_assoc]
    repeat
      first
      | exact occursIn_refl _
      | exact occursIn_here _ _
      | apply occursIn_append_left
